import Mathlib

/-!
# A4Blend audio player: embedding of `src/App.js`

The player is a single React component.  Its pure helpers (`formatTime`, the
title derivation, the search filter) become Lean functions; the component state
becomes the record `AppState`, every event handler a function on that record,
and one render-and-effects pass the function `commit`.

JavaScript strings are embedded as lists of characters (`JSString`), numbers
that serve as catalog positions as `Index`, numbers that measure time as `JSNum`
(exact rationals together with `NaN` and the two infinities).
-/

namespace A4Blend

/-! ## Strings -/

/-- A JavaScript string, as the sequence of its characters. -/
abbrev JSString := List Char

/-- `String.prototype.includes`: does `sub` occur in `s` as a contiguous run? -/
def includes (s sub : JSString) : Bool :=
  s.tails.any (fun t => sub.isPrefixOf t)

/-- `String.prototype.replace(pat, rep)` with a string pattern: only the first
occurrence of `pat` (scanning from the left) is replaced. -/
def replaceFirst (pat rep : JSString) : JSString → JSString
  | [] => if pat.isPrefixOf [] then rep else []
  | c :: cs =>
    if pat.isPrefixOf (c :: cs) then rep ++ (c :: cs).drop pat.length
    else c :: replaceFirst pat rep cs

/-- `String.prototype.padStart(n, pad)` for a one-character pad string. -/
def padStart (s : JSString) (n : Nat) (pad : Char) : JSString :=
  if n ≤ s.length then s else List.replicate (n - s.length) pad ++ s

/-- The lower-casing of ASCII letters; it agrees with
`String.prototype.toLowerCase` on strings of ASCII characters and is used for
the concrete scenarios only. -/
def asciiLowerCase (s : JSString) : JSString := s.map Char.toLower

/-! ## Catalog and search index -/

/-- A playlist entry, as built by `loadPlaylist`. -/
structure Song where
  title : JSString
  src : JSString
  cover : JSString
deriving DecidableEq, Repr

/-- The body of the `[searchQuery, playlist]` effect (App.js lines 97-105):
pair every song with its position, keep the pairs whose lower-cased title
includes the lower-cased query, project the positions.  `toLowerCase` is
`String.prototype.toLowerCase`. -/
def computeIndex (toLowerCase : JSString → JSString) (playlist : List Song)
    (searchQuery : JSString) : List Nat :=
  ((playlist.enum.map (fun p => (p.2, p.1))).filter
    (fun item => includes (toLowerCase item.1.title) (toLowerCase searchQuery))).map
    (fun item => item.2)

/-! ## Numbers -/

/-- A JavaScript value held in `currentIndex`: an integer, `undefined` (what
indexing an array out of range yields) or `NaN`. -/
inductive Index
  | num (i : Int)
  | undefined
  | nan
deriving DecidableEq, Repr

/-- The sum `x + k` or `x - k` of an index and an integer: `undefined` and `NaN`
both give `NaN`. -/
def Index.add : Index → Int → Index
  | .num i, k => .num (i + k)
  | _, _ => .nan

/-- The remainder `x % n` by an array length: JavaScript truncates towards zero
(the result has the sign of the dividend), and `x % 0` is `NaN`. -/
def Index.rem : Index → Nat → Index
  | .num i, n => if n = 0 then .nan else .num (Int.tmod i n)
  | _, _ => .nan

/-- A JavaScript number that measures time: an exact rational, `NaN`, or an
infinity with its sign.  Zero stands for positive zero. -/
inductive JSNum
  | fin (q : ℚ)
  | nan
  | inf (negative : Bool)
deriving DecidableEq

/-- Rounding of a rational towards zero. -/
def truncate (q : ℚ) : Int := if 0 ≤ q then ⌊q⌋ else ⌈q⌉

/-- The quotient `x / y`. -/
def JSNum.div : JSNum → JSNum → JSNum
  | .nan, _ => .nan
  | _, .nan => .nan
  | .inf _, .inf _ => .nan
  | .inf a, .fin q => .inf (a != decide (q < 0))
  | .fin _, .inf _ => .fin 0
  | .fin p, .fin q =>
    if q = 0 then (if p = 0 then .nan else .inf (decide (p < 0))) else .fin (p / q)

/-- The product `x * y`. -/
def JSNum.mul : JSNum → JSNum → JSNum
  | .nan, _ => .nan
  | _, .nan => .nan
  | .inf a, .inf b => .inf (a != b)
  | .inf a, .fin q => if q = 0 then .nan else .inf (a != decide (q < 0))
  | .fin p, .inf b => if p = 0 then .nan else .inf (b != decide (p < 0))
  | .fin p, .fin q => .fin (p * q)

/-- The remainder `x % y`: the dividend minus the divisor times the quotient
rounded towards zero. -/
def JSNum.rem : JSNum → JSNum → JSNum
  | .nan, _ => .nan
  | _, .nan => .nan
  | .inf _, _ => .nan
  | .fin p, .inf _ => .fin p
  | .fin p, .fin q => if q = 0 then .nan else .fin (p - q * truncate (p / q))

/-- The function `Math.floor`. -/
def JSNum.floor : JSNum → JSNum
  | .fin q => .fin ⌊q⌋
  | x => x

/-- The decimal digits of an integer, with a leading minus sign when negative. -/
def intToString (z : Int) : JSString :=
  if z < 0 then '-' :: Nat.toDigits 10 z.natAbs else Nat.toDigits 10 z.natAbs

/-- The method `Number.prototype.toString`.  The source converts results of
`Math.floor` only, which are integers; an integer of magnitude below `10^21`
prints as its plain decimal digits, and the embedding covers that range. -/
def JSNum.toJSString : JSNum → JSString
  | .nan => "NaN".toList
  | .inf false => "Infinity".toList
  | .inf true => "-Infinity".toList
  | .fin q => intToString ⌊q⌋

/-- App.js lines 157-165. -/
def formatTime (time : JSNum) : JSString :=
  let minutes := padStart (time.div (.fin 60)).floor.toJSString 2 '0'
  let seconds := padStart (time.rem (.fin 60)).floor.toJSString 2 '0'
  minutes ++ ":".toList ++ seconds

/-! ## Catalog builder -/

/-- An embedded picture of the parsed tag metadata. -/
structure Picture where
  format : JSString
  data : List Nat
deriving DecidableEq, Repr

/-- What fetching and parsing one audio file yields inside `extractCover`. -/
inductive Fetched
  | fetchRejected
  | notOk
  | parseRejected
  | metadata (picture : Option Picture)
deriving DecidableEq, Repr

/-- The collaborators of the catalog builder: the outcome of `fetch` followed by
`parseBlob` for each locator, and the browser function `window.btoa`. -/
structure World where
  fetchParse : JSString → Fetched
  btoa : JSString → JSString

/-- App.js lines 69-76: one character per byte, then `window.btoa`. -/
def arrayBufferToBase64 (w : World) (buffer : List Nat) : JSString :=
  w.btoa (buffer.foldl (fun binary byte => binary ++ [Char.ofNat byte]) [])

/-- App.js lines 39-67.  Every failure inside the `try` block is caught and the
function falls through to `return null` (here `none`). -/
def extractCover (w : World) (src : JSString) : Except JSString (Option JSString) :=
  tryCatch
    (match w.fetchParse src with
      | .fetchRejected => throw "fetch rejected".toList
      | .notOk => throw "Failed to fetch audio file".toList
      | .parseRejected => throw "parse rejected".toList
      | .metadata (some picture) =>
        pure (some ("data:".toList ++ picture.format ++ ";base64,".toList
          ++ arrayBufferToBase64 w picture.data))
      | .metadata none => pure none)
    (fun _ => pure none)

/-- The expression `cover || fallback`: `null` and the empty string are falsy. -/
def orElse (cover : Option JSString) (fallback : JSString) : JSString :=
  match cover with
  | some (c :: cs) => c :: cs
  | _ => fallback

/-- The fallback cover of `loadPlaylist`. -/
def defaultCover : JSString := "/assets/default.jpg".toList

/-- The title of a file (App.js lines 13 and 24): `file.replace(".mp3", "")`. -/
def titleOf (file : JSString) : JSString := replaceFirst ".mp3".toList [] file

/-- The per-file callback of `loadPlaylist` (App.js lines 11-29). -/
def loadEntry (w : World) (file : JSString) : Song :=
  let attempt : Except JSString Song := do
    let title := titleOf file
    let src := "/songs/".toList ++ file
    let cover ← extractCover w src
    pure { title := title, src := src, cover := orElse cover defaultCover }
  match attempt with
  | .ok song => song
  | .error _ =>
    { title := titleOf file, src := "/songs/".toList ++ file, cover := defaultCover }

/-- App.js lines 4-36.  `keys` is what `require.context(...).keys()` returns,
`none` when the enumeration throws; `Promise.all` keeps the order of the
mapped list. -/
def loadPlaylist (w : World) (keys : Option (List JSString)) : List Song :=
  match keys with
  | none => []
  | some ks =>
    let audioFiles := ks.map (fun key => replaceFirst "./".toList [] key)
    audioFiles.map (loadEntry w)

/-- The cover a file ends up with, by the outcome of its extraction: the data
URI of the embedded picture when there is one, the fallback otherwise. -/
def expectedCover (w : World) (src : JSString) : JSString :=
  match w.fetchParse src with
  | .metadata (some picture) =>
    "data:".toList ++ picture.format ++ ";base64,".toList ++ arrayBufferToBase64 w picture.data
  | _ => defaultCover

/-! ## Component state -/

/-- A command received by the audio element. -/
inductive SinkCall
  | setSource (src : JSString)
  | play
  | pause
  | setVolume (v : ℚ)
deriving DecidableEq

/-- The audio element behind `audioRef`: its `src` attribute, its volume and the
commands it has received, oldest first. -/
structure Sink where
  src : JSString
  volume : ℚ
  calls : List SinkCall
deriving DecidableEq

/-- The state hooks of `App` (lines 78-87) and the audio element. -/
structure AppState where
  playlist : List Song
  currentIndex : Index
  isPlaying : Bool
  progress : JSNum
  volume : ℚ
  currentTime : JSString
  duration : JSString
  searchQuery : JSString
  filteredIndices : List Nat
  audio : Sink
deriving DecidableEq

/-- The state at mount: the initial values of the hooks. -/
def initialState : AppState :=
  { playlist := [], currentIndex := .num 0, isPlaying := false, progress := .fin 0,
    volume := 1, currentTime := "00:00".toList, duration := "00:00".toList,
    searchQuery := [], filteredIndices := [],
    audio := { src := [], volume := 1, calls := [] } }

/-- App.js lines 109-112. -/
def playAudio (s : AppState) : AppState :=
  { s with isPlaying := true, audio := { s.audio with calls := s.audio.calls ++ [.play] } }

/-- App.js lines 114-117. -/
def pauseAudio (s : AppState) : AppState :=
  { s with isPlaying := false, audio := { s.audio with calls := s.audio.calls ++ [.pause] } }

/-- App.js lines 119-121. -/
def togglePlayPause (s : AppState) : AppState :=
  if s.isPlaying then pauseAudio s else playAudio s

/-- App.js lines 123-126. -/
def handleNext (s : AppState) : AppState :=
  { s with currentIndex := (s.currentIndex.add 1).rem s.playlist.length, isPlaying := true }

/-- App.js lines 128-131. -/
def handlePrevious (s : AppState) : AppState :=
  { s with
    currentIndex := ((s.currentIndex.add (-1)).add s.playlist.length).rem s.playlist.length,
    isPlaying := true }

/-- App.js lines 133-137. -/
def handleSongClick (s : AppState) (filteredIndex : Nat) : AppState :=
  let originalIndex : Index :=
    match s.filteredIndices[filteredIndex]? with
    | some i => .num i
    | none => .undefined
  { s with currentIndex := originalIndex, isPlaying := true }

/-- App.js lines 139-144; the two arguments are the element's `currentTime` and
`duration` at the time of the event. -/
def handleTimeUpdate (s : AppState) (currentTime duration : JSNum) : AppState :=
  { s with
    progress := (currentTime.div duration).mul (.fin 100),
    currentTime := formatTime currentTime,
    duration := formatTime duration }

/-- App.js lines 151-155; `newVolume` is the number the range input carries. -/
def handleVolumeChange (s : AppState) (newVolume : ℚ) : AppState :=
  { s with
    volume := newVolume,
    audio := { s.audio with volume := newVolume,
                            calls := s.audio.calls ++ [.setVolume newVolume] } }

/-- App.js lines 173-181. -/
def toggleMute (s : AppState) : AppState :=
  if s.volume > 0 then
    { s with volume := 0,
             audio := { s.audio with volume := 0, calls := s.audio.calls ++ [.setVolume 0] } }
  else
    { s with volume := 1,
             audio := { s.audio with volume := 1, calls := s.audio.calls ++ [.setVolume 1] } }

/-- What the user and the audio element can make happen. -/
inductive Event
  | playlistLoaded (loaded : List Song)
  | search (value : JSString)
  | clickPlayPause
  | clickNext
  | clickPrevious
  | clickSong (filteredIndex : Nat)
  | timeUpdate (currentTime duration : JSNum)
  | ended
  | volumeChange (value : ℚ)
  | clickMute

/-- The wiring of events to handlers in the JSX of `App`: `onEnded` and the
Next button both run `handleNext`. -/
def handle (e : Event) (s : AppState) : AppState :=
  match e with
  | .playlistLoaded loaded => { s with playlist := loaded }
  | .search value => { s with searchQuery := value }
  | .clickPlayPause => togglePlayPause s
  | .clickNext => handleNext s
  | .clickPrevious => handlePrevious s
  | .clickSong filteredIndex => handleSongClick s filteredIndex
  | .timeUpdate currentTime duration => handleTimeUpdate s currentTime duration
  | .ended => handleNext s
  | .volumeChange value => handleVolumeChange s value
  | .clickMute => toggleMute s

/-- The entry `playlist[currentIndex]` of the render, `none` for `undefined`. -/
def currentSong (s : AppState) : Option Song :=
  match s.currentIndex with
  | .num i => if 0 ≤ i then s.playlist[i.toNat]? else none
  | _ => none

/-- The render of `App` (lines 183-239) as far as the audio element goes: with an
empty playlist only the loading notice is shown; otherwise the element's `src`
follows `playlist[currentIndex].src`, and the render throws (`none`) when that
entry is `undefined`. -/
def render (s : AppState) : Option AppState :=
  if s.playlist.length = 0 then some s
  else
    match currentSong s with
    | none => none
    | some song =>
      if song.src = s.audio.src then some s
      else some { s with audio := { s.audio with src := song.src,
                                                 calls := s.audio.calls ++ [.setSource song.src] } }

/-- The effect of lines 97-105, run when `searchQuery` or `playlist` changed. -/
def searchEffect (toLowerCase : JSString → JSString) (prev s : AppState) : AppState :=
  if s.searchQuery = prev.searchQuery ∧ s.playlist = prev.playlist then s
  else { s with filteredIndices := computeIndex toLowerCase s.playlist s.searchQuery }

/-- The effect of lines 167-171, run when `currentIndex` changed. -/
def playEffect (prev s : AppState) : AppState :=
  if s.currentIndex = prev.currentIndex then s
  else if s.isPlaying then playAudio s else s

/-- One React update: the state produced by a handler is rendered, then the
effects whose dependencies differ from the previous render run in source order. -/
def commit (toLowerCase : JSString → JSString) (prev next : AppState) : Option AppState :=
  (render next).map (fun s => playEffect prev (searchEffect toLowerCase prev s))

/-- Which events can fire.  While the playlist is empty nothing but the loading
notice is rendered (line 183): no control, no search input, no audio element.
A song of the library list can be clicked only where the list has a row. -/
def enabled (e : Event) (s : AppState) : Bool :=
  match e with
  | .playlistLoaded _ => true
  | .clickSong filteredIndex =>
    decide (s.playlist.length ≠ 0) && decide (filteredIndex < s.filteredIndices.length)
  | _ => decide (s.playlist.length ≠ 0)

/-- One event, handled and committed; an event that cannot fire leaves the state
as it is. -/
def step (toLowerCase : JSString → JSString) (e : Event) (s : AppState) : Option AppState :=
  if enabled e s then commit toLowerCase s (handle e s) else some s

/-- A sequence of events, oldest first. -/
def run (toLowerCase : JSString → JSString) : List Event → AppState → Option AppState
  | [], s => some s
  | e :: es, s => (step toLowerCase e s).bind (run toLowerCase es)

/-! ## Scenarios -/

/-- The two-song catalog of the search scenario. -/
def scenarioPlaylist : List Song :=
  [ { title := "intro".toList, src := "/songs/intro.mp3".toList, cover := defaultCover },
    { title := "track-two".toList, src := "/songs/track-two.mp3".toList,
      cover := defaultCover } ]

/-- The scenario catalog once loaded: first song current, paused. -/
def scenarioState : AppState :=
  { initialState with
    playlist := scenarioPlaylist
    filteredIndices := [0, 1]
    audio := { src := "/songs/intro.mp3".toList, volume := 1,
               calls := [.setSource "/songs/intro.mp3".toList] } }

/-- The scenario catalog playing its last song, after one click on Next. -/
def scenarioLastState : AppState :=
  { scenarioState with
    currentIndex := .num 1
    isPlaying := true
    audio := { src := "/songs/track-two.mp3".toList, volume := 1,
               calls := [.setSource "/songs/intro.mp3".toList,
                         .setSource "/songs/track-two.mp3".toList, .play] } }

/-- A catalog of one song. -/
def soloPlaylist : List Song :=
  [ { title := "intro".toList, src := "/songs/intro.mp3".toList, cover := defaultCover } ]

/-! ## Search index -/

theorem includes_iff (s sub : JSString) : includes s sub = true ↔ sub <:+: s := by
  unfold includes
  rw [List.any_eq_true, List.infix_iff_prefix_suffix]
  constructor
  · rintro ⟨t, ht, hp⟩
    exact ⟨t, List.isPrefixOf_iff_prefix.mp hp, (List.mem_tails t s).mp ht⟩
  · rintro ⟨t, hp, ht⟩
    exact ⟨t, (List.mem_tails t s).mpr ht, List.isPrefixOf_iff_prefix.mpr hp⟩

theorem includes_nil (s : JSString) : includes s [] = true :=
  (includes_iff s []).mpr List.nil_infix

theorem mem_computeIndex (toLowerCase : JSString → JSString) (playlist : List Song)
    (q : JSString) (i : Nat) :
    i ∈ computeIndex toLowerCase playlist q ↔
      ∃ song, playlist[i]? = some song ∧ toLowerCase q <:+: toLowerCase song.title := by
  unfold computeIndex
  simp only [List.mem_map, List.mem_filter, includes_iff]
  constructor
  · rintro ⟨item, ⟨⟨p, hp, rfl⟩, hinc⟩, rfl⟩
    exact ⟨p.2, List.mem_enum_iff_getElem?.mp hp, hinc⟩
  · rintro ⟨song, hget, hinc⟩
    exact ⟨(song, i), ⟨⟨(i, song), List.mem_enum_iff_getElem?.mpr hget, rfl⟩, hinc⟩, rfl⟩

theorem computeIndex_sublist_range (toLowerCase : JSString → JSString) (playlist : List Song)
    (q : JSString) :
    List.Sublist (computeIndex toLowerCase playlist q) (List.range playlist.length) := by
  unfold computeIndex
  have h := (List.filter_sublist (p := fun item : Song × Nat =>
    includes (toLowerCase item.1.title) (toLowerCase q))
    (playlist.enum.map (fun p => (p.2, p.1)))).map (fun item => item.2)
  have e : List.map (fun item : Song × Nat => item.2)
      (playlist.enum.map (fun p => (p.2, p.1))) = List.range playlist.length := by
    rw [List.map_map, ← List.enum_map_fst]; rfl
  rw [e] at h
  exact h

theorem computeIndex_of_empty (toLowerCase : JSString → JSString) (playlist : List Song)
    (q : JSString) (h : toLowerCase q = []) :
    computeIndex toLowerCase playlist q = List.range playlist.length := by
  unfold computeIndex
  rw [h]
  simp only [includes_nil, List.filter_true, List.map_map]
  rw [← List.enum_map_fst]; rfl

/-- C1. The search index of a catalog and a query is the strictly increasing list
of exactly the positions whose lower-cased title contains the lower-cased query;
for the empty query it is `[0, 1, ..., N-1]`. -/
theorem computeIndex_spec (toLowerCase : JSString → JSString)
    (hempty : toLowerCase [] = []) (playlist : List Song) (q : JSString) :
    (computeIndex toLowerCase playlist q).Pairwise (fun a b => a < b) ∧
    (∀ i, i ∈ computeIndex toLowerCase playlist q ↔
      ∃ h : i < playlist.length, toLowerCase q <:+: toLowerCase (playlist[i]).title) ∧
    computeIndex toLowerCase playlist [] = List.range playlist.length := by
  refine ⟨(List.pairwise_lt_range _).sublist (computeIndex_sublist_range _ _ _), ?_,
    computeIndex_of_empty _ _ _ hempty⟩
  intro i
  rw [mem_computeIndex]
  constructor
  · rintro ⟨song, hget, hinc⟩
    obtain ⟨h, rfl⟩ := List.getElem?_eq_some_iff.mp hget
    exact ⟨h, hinc⟩
  · rintro ⟨h, hinc⟩
    exact ⟨playlist[i], List.getElem?_eq_getElem h, hinc⟩

theorem computeIndex_spec_witness :
    asciiLowerCase [] = [] ∧
    ((computeIndex asciiLowerCase scenarioPlaylist "two".toList).Pairwise (fun a b => a < b) ∧
    (∀ i, i ∈ computeIndex asciiLowerCase scenarioPlaylist "two".toList ↔
      ∃ h : i < scenarioPlaylist.length,
        asciiLowerCase "two".toList <:+: asciiLowerCase (scenarioPlaylist[i]).title) ∧
    computeIndex asciiLowerCase scenarioPlaylist [] = List.range scenarioPlaylist.length) :=
  ⟨rfl, computeIndex_spec asciiLowerCase rfl scenarioPlaylist "two".toList⟩

theorem computeIndex_scenario :
    computeIndex asciiLowerCase scenarioPlaylist "two".toList = [1] := by
  decide

/-! ## Navigation -/

theorem commit_of_currentSong (toLowerCase : JSString → JSString) (prev next : AppState)
    (song : Song) (hne : next.playlist.length ≠ 0) (hsong : currentSong next = some song) :
    ∃ t, commit toLowerCase prev next = some t ∧ t.playlist = next.playlist ∧
      t.currentIndex = next.currentIndex ∧ t.isPlaying = next.isPlaying ∧
      t.searchQuery = next.searchQuery ∧ t.volume = next.volume ∧
      t.audio.src = song.src ∧ t.audio.volume = next.audio.volume ∧
      t.audio.calls = next.audio.calls
        ++ (if song.src = next.audio.src then [] else [.setSource song.src])
        ++ (if next.currentIndex = prev.currentIndex then []
            else if next.isPlaying then [.play] else []) := by
  unfold commit render
  simp only [hne, hsong, if_false]
  unfold playEffect searchEffect playAudio
  by_cases hsrc : song.src = next.audio.src
  · simp only [hsrc, if_true, Option.map_some']
    refine ⟨_, rfl, ?_⟩
    split_ifs <;> simp_all
  · simp only [hsrc, if_false, Option.map_some']
    refine ⟨_, rfl, ?_⟩
    split_ifs <;> simp_all

theorem currentSong_of_lt (s : AppState) (i : Int) (hidx : s.currentIndex = .num i)
    (h0 : 0 ≤ i) (hi : i < s.playlist.length) :
    ∃ song, currentSong s = some song ∧ s.playlist[i.toNat]? = some song := by
  have hlt : i.toNat < s.playlist.length := by omega
  refine ⟨s.playlist[i.toNat], ?_, List.getElem?_eq_getElem hlt⟩
  unfold currentSong
  simp [hidx, h0, List.getElem?_eq_getElem hlt]

theorem step_clickNext (toLowerCase : JSString → JSString) (s : AppState) (i : Int)
    (hidx : s.currentIndex = .num i) (h0 : 0 ≤ i) (hi : i < s.playlist.length) :
    ∃ t, step toLowerCase .clickNext s = some t ∧ t.playlist = s.playlist ∧
      t.currentIndex = .num ((i + 1) % s.playlist.length) ∧ t.isPlaying = true := by
  have hne : s.playlist.length ≠ 0 := by omega
  have hpos : (0 : Int) < s.playlist.length := by omega
  have hnext : (handleNext s).currentIndex = .num ((i + 1) % s.playlist.length) := by
    simp [handleNext, hidx, Index.add, Index.rem, hne,
      Int.tmod_eq_emod (by omega : 0 ≤ i + 1) (by omega : (0 : Int) ≤ s.playlist.length)]
  obtain ⟨song, hsong, -⟩ := currentSong_of_lt (handleNext s) _ hnext
    (Int.emod_nonneg _ (by omega)) (Int.emod_lt_of_pos _ hpos)
  obtain ⟨t, ht, hp, hc, hpl, -⟩ := commit_of_currentSong toLowerCase s (handleNext s) song
    hne hsong
  refine ⟨t, ?_, hp, hc.trans hnext, hpl⟩
  simp [step, enabled, hne, handle, ht]

theorem step_clickPrevious (toLowerCase : JSString → JSString) (s : AppState) (i : Int)
    (hidx : s.currentIndex = .num i) (h0 : 0 ≤ i) (hi : i < s.playlist.length) :
    ∃ t, step toLowerCase .clickPrevious s = some t ∧ t.playlist = s.playlist ∧
      t.currentIndex = .num ((i - 1) % s.playlist.length) ∧ t.isPlaying = true := by
  have hne : s.playlist.length ≠ 0 := by omega
  have hpos : (0 : Int) < s.playlist.length := by omega
  have hprev : (handlePrevious s).currentIndex = .num ((i - 1) % s.playlist.length) := by
    have e : (i + -1 + (s.playlist.length : Int)).tmod s.playlist.length
        = (i - 1) % s.playlist.length := by
      rw [Int.tmod_eq_emod (by omega) (by omega)]
      have : i + -1 + (s.playlist.length : Int) = (i - 1) + s.playlist.length := by ring
      rw [this, Int.add_emod_self]
    simp [handlePrevious, hidx, Index.add, Index.rem, hne, e]
  obtain ⟨song, hsong, -⟩ := currentSong_of_lt (handlePrevious s) _ hprev
    (Int.emod_nonneg _ (by omega)) (Int.emod_lt_of_pos _ hpos)
  obtain ⟨t, ht, hp, hc, hpl, -⟩ := commit_of_currentSong toLowerCase s (handlePrevious s) song
    hne hsong
  refine ⟨t, ?_, hp, hc.trans hprev, hpl⟩
  simp [step, enabled, hne, handle, ht]

theorem run_clickNext (toLowerCase : JSString → JSString) (k : Nat) :
    ∀ (s : AppState) (i : Int), s.currentIndex = .num i → 0 ≤ i → i < s.playlist.length →
      ∃ t, run toLowerCase (List.replicate k .clickNext) s = some t ∧
        t.playlist = s.playlist ∧ t.currentIndex = .num ((i + k) % s.playlist.length) := by
  induction k with
  | zero =>
    intro s i hidx h0 hi
    exact ⟨s, rfl, rfl, by simp [hidx, Int.emod_eq_of_lt h0 hi]⟩
  | succ k ih =>
    intro s i hidx h0 hi
    have hpos : (0 : Int) < s.playlist.length := by omega
    obtain ⟨t, ht, hp, hc, -⟩ := step_clickNext toLowerCase s i hidx h0 hi
    obtain ⟨u, hu, hup, huc⟩ := ih t _ hc (Int.emod_nonneg _ (by omega))
      (by rw [hp]; exact Int.emod_lt_of_pos _ hpos)
    refine ⟨u, ?_, hup.trans hp, ?_⟩
    · simp [List.replicate_succ, run, ht, hu]
    · rw [huc, hp, Int.emod_add_emod]
      congr 2
      push_cast
      ring

theorem run_clickPrevious (toLowerCase : JSString → JSString) (k : Nat) :
    ∀ (s : AppState) (i : Int), s.currentIndex = .num i → 0 ≤ i → i < s.playlist.length →
      ∃ t, run toLowerCase (List.replicate k .clickPrevious) s = some t ∧
        t.playlist = s.playlist ∧ t.currentIndex = .num ((i - k) % s.playlist.length) := by
  induction k with
  | zero =>
    intro s i hidx h0 hi
    exact ⟨s, rfl, rfl, by simp [hidx, Int.emod_eq_of_lt h0 hi]⟩
  | succ k ih =>
    intro s i hidx h0 hi
    have hpos : (0 : Int) < s.playlist.length := by omega
    obtain ⟨t, ht, hp, hc, -⟩ := step_clickPrevious toLowerCase s i hidx h0 hi
    obtain ⟨u, hu, hup, huc⟩ := ih t _ hc (Int.emod_nonneg _ (by omega))
      (by rw [hp]; exact Int.emod_lt_of_pos _ hpos)
    refine ⟨u, ?_, hup.trans hp, ?_⟩
    · simp [List.replicate_succ, run, ht, hu]
    · rw [huc, hp, Int.sub_eq_add_neg, Int.emod_add_emod]
      congr 2
      push_cast
      ring

/-- C2. Wraparound law: in a catalog of `N` songs, from any valid position `i`
(`0 ≤ i < N`, hence `N ≥ 1`), `N` clicks on Next bring `currentIndex` back to
`i`, and so do `N` clicks on Previous. -/
theorem wraparound (toLowerCase : JSString → JSString) (s : AppState) (i : Int)
    (hidx : s.currentIndex = .num i) (h0 : 0 ≤ i) (hi : i < s.playlist.length) :
    (∃ t, run toLowerCase (List.replicate s.playlist.length .clickNext) s = some t ∧
      t.currentIndex = .num i) ∧
    (∃ t, run toLowerCase (List.replicate s.playlist.length .clickPrevious) s = some t ∧
      t.currentIndex = .num i) := by
  constructor
  · obtain ⟨t, ht, -, hc⟩ := run_clickNext toLowerCase s.playlist.length s i hidx h0 hi
    exact ⟨t, ht, by rw [hc, Int.add_emod_self, Int.emod_eq_of_lt h0 hi]⟩
  · obtain ⟨t, ht, -, hc⟩ := run_clickPrevious toLowerCase s.playlist.length s i hidx h0 hi
    refine ⟨t, ht, ?_⟩
    rw [hc, Int.sub_emod, Int.emod_self, Int.sub_zero, Int.emod_emod, Int.emod_eq_of_lt h0 hi]

theorem wraparound_witness :
    (scenarioState.currentIndex = .num 0 ∧ (0 : Int) ≤ 0 ∧ (0 : Int) < scenarioState.playlist.length) ∧
    ((∃ t, run asciiLowerCase (List.replicate scenarioState.playlist.length .clickNext)
        scenarioState = some t ∧ t.currentIndex = .num 0) ∧
    (∃ t, run asciiLowerCase (List.replicate scenarioState.playlist.length .clickPrevious)
        scenarioState = some t ∧ t.currentIndex = .num 0)) :=
  ⟨⟨rfl, by decide, by decide⟩,
    wraparound asciiLowerCase scenarioState 0 rfl (by decide) (by decide)⟩

theorem scenarioState_reached :
    run asciiLowerCase [.playlistLoaded scenarioPlaylist] initialState = some scenarioState := by
  decide

/-- C3. In a non-empty catalog of `N` songs, at any valid position `i` and in
either transport state, the `ended` event of the audio element does what a click
on Next does: `currentIndex` becomes `(i + 1) mod N`, a valid position, and
`isPlaying` becomes true; at the last song the new position is `0`. -/
theorem ended_is_next (toLowerCase : JSString → JSString) (s : AppState) (i : Int)
    (hidx : s.currentIndex = .num i) (h0 : 0 ≤ i) (hi : i < s.playlist.length) :
    step toLowerCase .ended s = step toLowerCase .clickNext s ∧
    ∃ t, step toLowerCase .ended s = some t ∧
      t.currentIndex = .num ((i + 1) % s.playlist.length) ∧
      0 ≤ (i + 1) % s.playlist.length ∧ (i + 1) % s.playlist.length < s.playlist.length ∧
      t.isPlaying = true ∧
      (i = s.playlist.length - 1 → t.currentIndex = .num 0) := by
  have hpos : (0 : Int) < s.playlist.length := by omega
  obtain ⟨t, ht, -, hc, hpl⟩ := step_clickNext toLowerCase s i hidx h0 hi
  refine ⟨rfl, t, ht, hc, Int.emod_nonneg _ (by omega), Int.emod_lt_of_pos _ hpos, hpl, ?_⟩
  intro hlast
  rw [hc, hlast]
  simp

theorem scenarioLastState_reached :
    step asciiLowerCase .clickNext scenarioState = some scenarioLastState := by
  decide

theorem ended_is_next_witness :
    (scenarioLastState.currentIndex = .num 1 ∧ (0 : Int) ≤ 1 ∧ (1 : Int) < scenarioLastState.playlist.length) ∧
    (step asciiLowerCase .ended scenarioLastState = step asciiLowerCase .clickNext scenarioLastState ∧
    ∃ t, step asciiLowerCase .ended scenarioLastState = some t ∧
      t.currentIndex = .num ((1 + 1) % scenarioLastState.playlist.length) ∧
      0 ≤ ((1 : Int) + 1) % scenarioLastState.playlist.length ∧
      ((1 : Int) + 1) % scenarioLastState.playlist.length < scenarioLastState.playlist.length ∧
      t.isPlaying = true ∧
      ((1 : Int) = scenarioLastState.playlist.length - 1 → t.currentIndex = .num 0)) :=
  ⟨⟨rfl, by decide, by decide⟩,
    ended_is_next asciiLowerCase scenarioLastState 1 rfl (by decide) (by decide)⟩

theorem step_clickSong (toLowerCase : JSString → JSString) (s : AppState) (pos : Nat)
    (hpos : pos < s.filteredIndices.length)
    (hlt : s.filteredIndices[pos] < s.playlist.length) :
    ∃ t, step toLowerCase (.clickSong pos) s = some t ∧ t.playlist = s.playlist ∧
      t.currentIndex = .num (s.filteredIndices[pos] : Nat) ∧ t.isPlaying = true := by
  have hne : s.playlist.length ≠ 0 := by omega
  have hclick : (handleSongClick s pos).currentIndex = .num (s.filteredIndices[pos] : Nat) := by
    simp [handleSongClick, List.getElem?_eq_getElem hpos]
  obtain ⟨song, hsong, -⟩ := currentSong_of_lt (handleSongClick s pos) _ hclick
    (by omega) (by simpa [handleSongClick] using hlt)
  obtain ⟨t, ht, hp, hc, hpl, -⟩ := commit_of_currentSong toLowerCase s (handleSongClick s pos)
    song hne hsong
  refine ⟨t, ?_, hp, hc.trans hclick, hpl⟩
  simp [step, enabled, hne, hpos, handle, ht]

/-- C4. When the search index is the one computed from the catalog and the
query, a click on row `pos` of the library list (`pos` below the length of the
search index) sets `currentIndex` to the `pos`-th element of the search index,
which is a valid catalog position whose title matches the query, and sets
`isPlaying`; with titles "intro" and "track-two" and query "two" the search
index is `[1]` and a click on its only row gives position `1`, playing. -/
theorem selectFromSearch (toLowerCase : JSString → JSString) (s : AppState) (pos : Nat)
    (hsync : s.filteredIndices = computeIndex toLowerCase s.playlist s.searchQuery)
    (hpos : pos < s.filteredIndices.length) :
    (∃ t, step toLowerCase (.clickSong pos) s = some t ∧
      t.currentIndex = .num (s.filteredIndices[pos] : Nat) ∧ t.isPlaying = true ∧
      ∃ h : s.filteredIndices[pos] < s.playlist.length,
        toLowerCase s.searchQuery <:+: toLowerCase (s.playlist[s.filteredIndices[pos]]).title) ∧
    (run asciiLowerCase
        [.playlistLoaded scenarioPlaylist, .search "two".toList, .clickSong 0] initialState).map
      (fun t => (t.filteredIndices, t.currentIndex, t.isPlaying)) = some ([1], .num 1, true) := by
  refine ⟨?_, by decide⟩
  have hmem : s.filteredIndices[pos] ∈ computeIndex toLowerCase s.playlist s.searchQuery := by
    rw [← hsync]; exact List.getElem_mem hpos
  obtain ⟨song, hget, hinc⟩ := (mem_computeIndex _ _ _ _).mp hmem
  obtain ⟨hlt, rfl⟩ := List.getElem?_eq_some_iff.mp hget
  obtain ⟨t, ht, -, hc, hpl⟩ := step_clickSong toLowerCase s pos hpos hlt
  exact ⟨t, ht, hc, hpl, hlt, hinc⟩

theorem selectFromSearch_witness :
    (scenarioState.filteredIndices
        = computeIndex asciiLowerCase scenarioState.playlist scenarioState.searchQuery ∧
      1 < scenarioState.filteredIndices.length) ∧
    ((∃ t, step asciiLowerCase (.clickSong 1) scenarioState = some t ∧
      t.currentIndex = .num ((scenarioState.filteredIndices.get ⟨1, by decide⟩ : Nat)) ∧
      t.isPlaying = true ∧
      ∃ h : scenarioState.filteredIndices.get ⟨1, by decide⟩ < scenarioState.playlist.length,
        asciiLowerCase scenarioState.searchQuery <:+:
          asciiLowerCase (scenarioState.playlist[scenarioState.filteredIndices.get
            ⟨1, by decide⟩]).title) ∧
    (run asciiLowerCase
        [.playlistLoaded scenarioPlaylist, .search "two".toList, .clickSong 0] initialState).map
      (fun t => (t.filteredIndices, t.currentIndex, t.isPlaying)) = some ([1], .num 1, true)) :=
  ⟨⟨by decide, by decide⟩, selectFromSearch asciiLowerCase scenarioState 1 (by decide) (by decide)⟩

theorem handle_filteredIndices (e : Event) (s : AppState) :
    (handle e s).filteredIndices = s.filteredIndices := by
  cases e <;> simp only [handle, togglePlayPause, playAudio, pauseAudio, handleNext,
    handlePrevious, handleSongClick, handleTimeUpdate, handleVolumeChange, toggleMute] <;>
    split_ifs <;> rfl

theorem render_fields (s t : AppState) (h : render s = some t) :
    t.playlist = s.playlist ∧ t.searchQuery = s.searchQuery ∧
      t.filteredIndices = s.filteredIndices := by
  unfold render at h
  split_ifs at h with hlen
  · cases h; exact ⟨rfl, rfl, rfl⟩
  · split at h
    · cases h
    · split_ifs at h <;> cases h <;> exact ⟨rfl, rfl, rfl⟩

theorem playEffect_fields (prev s : AppState) :
    (playEffect prev s).playlist = s.playlist ∧ (playEffect prev s).searchQuery = s.searchQuery ∧
      (playEffect prev s).filteredIndices = s.filteredIndices := by
  unfold playEffect playAudio
  split_ifs <;> exact ⟨rfl, rfl, rfl⟩

/-- The search index held in the state is the one computed from the catalog and
the query: this holds at mount and every event keeps it. -/
theorem step_keeps_search_index (toLowerCase : JSString → JSString) (e : Event)
    (s t : AppState)
    (hsync : s.filteredIndices = computeIndex toLowerCase s.playlist s.searchQuery)
    (h : step toLowerCase e s = some t) :
    t.filteredIndices = computeIndex toLowerCase t.playlist t.searchQuery := by
  unfold step at h
  split_ifs at h
  · unfold commit at h
    obtain ⟨r, hr, rfl⟩ := Option.map_eq_some'.mp h
    obtain ⟨hp, hq, hf⟩ := render_fields _ _ hr
    obtain ⟨hp', hq', hf'⟩ := playEffect_fields s (searchEffect toLowerCase s r)
    rw [hp', hq', hf']
    unfold searchEffect
    split_ifs with hsame
    · rw [hf, handle_filteredIndices, hsame.1, hsame.2]; exact hsync
    · rfl
  · cases h; exact hsync

theorem initialState_search_index (toLowerCase : JSString → JSString) :
    initialState.filteredIndices
      = computeIndex toLowerCase initialState.playlist initialState.searchQuery := rfl

/-- The commands a click on Next sends: the new source when it differs from the
loaded one, then `play` when the position changed. -/
theorem clickNext_calls (toLowerCase : JSString → JSString) (s : AppState) (i : Int)
    (hidx : s.currentIndex = .num i) (h0 : 0 ≤ i) (hi : i < s.playlist.length) :
    ∃ t song, step toLowerCase .clickNext s = some t ∧
      s.playlist[((i + 1) % s.playlist.length).toNat]? = some song ∧
      t.audio.src = song.src ∧
      t.audio.calls = s.audio.calls
        ++ (if song.src = s.audio.src then [] else [.setSource song.src])
        ++ (if (i + 1) % s.playlist.length = i then [] else [.play]) := by
  have hne : s.playlist.length ≠ 0 := by omega
  have hpos : (0 : Int) < s.playlist.length := by omega
  have hnext : (handleNext s).currentIndex = .num ((i + 1) % s.playlist.length) := by
    simp [handleNext, hidx, Index.add, Index.rem, hne,
      Int.tmod_eq_emod (by omega : 0 ≤ i + 1) (by omega : (0 : Int) ≤ s.playlist.length)]
  obtain ⟨song, hsong, hget⟩ := currentSong_of_lt (handleNext s) _ hnext
    (Int.emod_nonneg _ (by omega)) (Int.emod_lt_of_pos _ hpos)
  obtain ⟨t, ht, -, -, -, -, -, hsrc, -, hcalls⟩ :=
    commit_of_currentSong toLowerCase s (handleNext s) song hne hsong
  refine ⟨t, song, by simp [step, enabled, hne, handle, ht], hget, hsrc, ?_⟩
  rw [hcalls, hnext, hidx]
  simp [handleNext]

/-- C7. Evaluation at the failing input: in a catalog of one song, loaded and
paused, a click on Next leaves `currentIndex` at `0` and sets `isPlaying`, yet the
audio element has received no `play` command. -/
theorem next_in_solo_catalog_sends_no_play :
    (run asciiLowerCase [.playlistLoaded soloPlaylist, .clickNext] initialState).map
      (fun t => (t.currentIndex, t.isPlaying, t.audio.src, t.audio.calls))
      = some (.num 0, true, "/songs/intro.mp3".toList,
          [.setSource "/songs/intro.mp3".toList]) ∧
    (run asciiLowerCase [.playlistLoaded scenarioPlaylist, .clickSong 0] initialState).map
      (fun t => (t.currentIndex, t.isPlaying, t.audio.src, t.audio.calls))
      = some (.num 0, true, "/songs/intro.mp3".toList,
          [.setSource "/songs/intro.mp3".toList]) := by
  constructor <;> decide

/-- C8. For every volume `v ≥ 0`, `toggleMute` sets the local volume and the
volume of the audio element to `1` when `v = 0` and to `0` when `v > 0`; it keeps
no memory of the level it muted, so a second toggle gives `1`, and volume `0` set
by the slider followed by `toggleMute` gives `1`. -/
theorem toggleMute_spec (s : AppState) (h0 : 0 ≤ s.volume) :
    (toggleMute s).volume = (if s.volume = 0 then 1 else 0) ∧
    (toggleMute s).audio.volume = (if s.volume = 0 then 1 else 0) ∧
    (toggleMute (toggleMute s)).volume = (if s.volume = 0 then 0 else 1) ∧
    (toggleMute (handleVolumeChange s 0)).volume = 1 ∧
    (toggleMute (handleVolumeChange s 0)).audio.volume = 1 := by
  rcases h0.eq_or_lt with h | h
  · simp [toggleMute, handleVolumeChange, ← h]
  · simp [toggleMute, handleVolumeChange, h, h.ne']

theorem toggleMute_spec_witness :
    (0 : ℚ) ≤ scenarioState.volume ∧
    ((toggleMute scenarioState).volume = (if scenarioState.volume = 0 then 1 else 0) ∧
    (toggleMute scenarioState).audio.volume = (if scenarioState.volume = 0 then 1 else 0) ∧
    (toggleMute (toggleMute scenarioState)).volume
      = (if scenarioState.volume = 0 then 0 else 1) ∧
    (toggleMute (handleVolumeChange scenarioState 0)).volume = 1 ∧
    (toggleMute (handleVolumeChange scenarioState 0)).audio.volume = 1) :=
  ⟨by simp [scenarioState, initialState], toggleMute_spec scenarioState
    (by simp [scenarioState, initialState])⟩

/-! ## Catalog builder -/

theorem loadEntry_eq (w : World) (file : JSString) :
    loadEntry w file =
      { title := titleOf file, src := "/songs/".toList ++ file,
        cover := expectedCover w ("/songs/".toList ++ file) } := by
  unfold loadEntry extractCover expectedCover
  dsimp only
  generalize w.fetchParse ("/songs/".toList ++ file) = outcome
  rcases outcome with _ | _ | _ | _ | picture <;> rfl

/-- C9. For every enumerated list of keys and every outcome of the per-file
extraction, `loadPlaylist` returns as many entries as there are files, and its
`k`-th entry has the locator `/songs/` followed by the `k`-th file and, as cover,
the data URI of the extracted picture when the extraction yields one and
`/assets/default.jpg` in every other case. -/
theorem loadPlaylist_spec (w : World) (keys : List JSString) :
    (loadPlaylist w (some keys)).length = keys.length ∧
    ∀ (k : Nat) (h : k < keys.length),
      ∃ song, (loadPlaylist w (some keys))[k]? = some song ∧
        song.src = "/songs/".toList ++ replaceFirst "./".toList [] keys[k] ∧
        song.cover = (match w.fetchParse song.src with
          | .metadata (some picture) =>
            "data:".toList ++ picture.format ++ ";base64,".toList
              ++ arrayBufferToBase64 w picture.data
          | _ => "/assets/default.jpg".toList) := by
  refine ⟨by simp [loadPlaylist], ?_⟩
  intro k h
  refine ⟨loadEntry w (replaceFirst "./".toList [] keys[k]), ?_, ?_, ?_⟩
  · simp [loadPlaylist, List.getElem?_eq_getElem h]
  · rw [loadEntry_eq]
  · rw [loadEntry_eq]; rfl

theorem replaceFirst_append_self (pat : JSString) (hpat : pat ≠ []) :
    ∀ base : JSString, (∀ k, k < base.length → ¬ pat <+: (base ++ pat).drop k) →
      replaceFirst pat [] (base ++ pat) = base := by
  intro base
  induction base with
  | nil =>
    intro _
    obtain ⟨c, cs, rfl⟩ := List.exists_cons_of_ne_nil hpat
    simp [replaceFirst]
  | cons b bs ih =>
    intro hfirst
    have h0 : ¬ pat <+: b :: (bs ++ pat) := by simpa using hfirst 0 (by simp)
    have hrest : ∀ k, k < bs.length → ¬ pat <+: (bs ++ pat).drop k := by
      intro k hk
      simpa using hfirst (k + 1) (by simpa using hk)
    have hstep : replaceFirst pat [] (b :: (bs ++ pat))
        = b :: replaceFirst pat [] (bs ++ pat) := by
      rw [replaceFirst]
      simp only [List.isPrefixOf_iff_prefix, h0, if_false]
    rw [List.cons_append, hstep, ih hrest]

/-- Where `.mp3` occurs in a file name at its end only, the title is the name
without the extension. -/
theorem titleOf_strips_extension (base : JSString)
    (hfirst : ∀ k, k < base.length → ¬ ".mp3".toList <+: (base ++ ".mp3".toList).drop k) :
    titleOf (base ++ ".mp3".toList) = base :=
  replaceFirst_append_self ".mp3".toList (by decide) base hfirst

/-- C10. Evaluation at the failing input: for the file `demo.mp3.backup.mp3`,
which ends in `.mp3`, the title of the catalog entry is `demo.backup.mp3` and not
the identifier without its final `.mp3`, `demo.mp3.backup`. -/
theorem title_drops_first_mp3 (w : World) :
    (loadPlaylist w (some ["./demo.mp3.backup.mp3".toList])).map Song.title
      = ["demo.backup.mp3".toList] ∧
    "demo.mp3.backup.mp3".toList = "demo.mp3.backup".toList ++ ".mp3".toList ∧
    "demo.backup.mp3".toList ≠ "demo.mp3.backup".toList := by
  refine ⟨?_, by decide, by decide⟩
  simp only [loadPlaylist, List.map_cons, List.map_nil, loadEntry_eq]
  decide

/-! ## Time formatter -/

theorem padStart_two_digits :
    ∀ n, n < 100 →
      padStart (Nat.toDigits 10 n) 2 '0' = [Nat.digitChar (n / 10), Nat.digitChar (n % 10)] := by
  decide

theorem formatTime_fin (s : ℚ) (h0 : 0 ≤ s) :
    formatTime (.fin s) =
      padStart (Nat.toDigits 10 ⌊s / 60⌋₊) 2 '0' ++ ":".toList
        ++ padStart (Nat.toDigits 10 ⌊s - 60 * ⌊s / 60⌋₊⌋₊) 2 '0' := by
  have hx : 0 ≤ s / 60 := div_nonneg h0 (by norm_num)
  have hfl : (0 : Int) ≤ ⌊s / 60⌋ := Int.floor_nonneg.mpr hx
  have hcast : ((⌊s / 60⌋₊ : Nat) : Int) = ⌊s / 60⌋ := Int.natCast_floor_eq_floor hx
  have hcastq : ((⌊s / 60⌋₊ : Nat) : ℚ) = ((⌊s / 60⌋ : Int) : ℚ) := by
    rw [← hcast]; simp
  have hle : ((⌊s / 60⌋ : Int) : ℚ) ≤ s / 60 := Int.floor_le _
  have hr : 0 ≤ s - 60 * ((⌊s / 60⌋ : Int) : ℚ) := by linarith
  have hfr : (0 : Int) ≤ ⌊s - 60 * ((⌊s / 60⌋ : Int) : ℚ)⌋ := Int.floor_nonneg.mpr hr
  have hcastr : ((⌊s - 60 * ((⌊s / 60⌋ : Int) : ℚ)⌋₊ : Nat) : Int)
      = ⌊s - 60 * ((⌊s / 60⌋ : Int) : ℚ)⌋ := Int.natCast_floor_eq_floor hr
  have hm : (⌊s / 60⌋).natAbs = ⌊s / 60⌋₊ := by omega
  have hs : (⌊s - 60 * ((⌊s / 60⌋ : Int) : ℚ)⌋).natAbs
      = ⌊s - 60 * ((⌊s / 60⌋ : Int) : ℚ)⌋₊ := by omega
  have h60 : (60 : ℚ) ≠ 0 := by norm_num
  simp only [formatTime, JSNum.div, JSNum.rem, JSNum.floor, JSNum.toJSString, truncate,
    intToString, h60, if_false, hx, if_true, Int.floor_intCast, not_lt.mpr hfl, not_lt.mpr hfr,
    hm, hs, hcastq]

theorem formatTime_natCast (n : Nat) :
    formatTime (.fin n) =
      padStart (Nat.toDigits 10 (n / 60)) 2 '0' ++ ":".toList
        ++ padStart (Nat.toDigits 10 (n % 60)) 2 '0' := by
  have e1 : ⌊(n : ℚ) / 60⌋₊ = n / 60 := by
    have := Nat.floor_div_nat (n : ℚ) 60
    simpa using this
  have e2 : ⌊(n : ℚ) - 60 * ((n / 60 : Nat) : ℚ)⌋₊ = n % 60 := by
    have h : (n : ℚ) - 60 * ((n / 60 : Nat) : ℚ) = ((n % 60 : Nat) : ℚ) := by
      have := Nat.div_add_mod n 60
      have hq : ((60 * (n / 60) + n % 60 : Nat) : ℚ) = (n : ℚ) := by rw [this]
      push_cast at hq
      linarith
    rw [h, Nat.floor_natCast]
  rw [formatTime_fin _ (Nat.cast_nonneg n), e1, e2]

/-- C5, as amended. For every number of seconds `0 ≤ s < 6000`, `formatTime(s)`
is two decimal digits, a colon and two decimal digits: the minutes
`floor(s / 60)`, below 100, and the seconds `floor(s mod 60)`, below 60, each
zero-padded to two digits; `format(0)` is `00:00` and `format(65)` is `01:05`. -/
theorem formatTime_spec (s : ℚ) (h0 : 0 ≤ s) (h : s < 6000) :
    ⌊s / 60⌋₊ < 100 ∧ ⌊s - 60 * ⌊s / 60⌋₊⌋₊ < 60 ∧
    formatTime (.fin s) =
      [Nat.digitChar (⌊s / 60⌋₊ / 10), Nat.digitChar (⌊s / 60⌋₊ % 10), ':',
       Nat.digitChar (⌊s - 60 * ⌊s / 60⌋₊⌋₊ / 10),
       Nat.digitChar (⌊s - 60 * ⌊s / 60⌋₊⌋₊ % 10)] ∧
    formatTime (.fin 0) = "00:00".toList ∧ formatTime (.fin 65) = "01:05".toList := by
  have hx : 0 ≤ s / 60 := div_nonneg h0 (by norm_num)
  have hm : ⌊s / 60⌋₊ < 100 := by
    rw [Nat.floor_lt hx]; push_cast; linarith
  have hlt : s / 60 < ((⌊s / 60⌋₊ : Nat) : ℚ) + 1 := Nat.lt_floor_add_one _
  have hle : ((⌊s / 60⌋₊ : Nat) : ℚ) ≤ s / 60 := Nat.floor_le hx
  have hr : 0 ≤ s - 60 * ((⌊s / 60⌋₊ : Nat) : ℚ) := by linarith
  have hs : ⌊s - 60 * ((⌊s / 60⌋₊ : Nat) : ℚ)⌋₊ < 60 := by
    rw [Nat.floor_lt hr]; push_cast; linarith
  refine ⟨hm, hs, ?_, ?_, ?_⟩
  · rw [formatTime_fin s h0, padStart_two_digits _ hm, padStart_two_digits _ (by omega)]
    rfl
  · have e := formatTime_natCast 0
    simp only [Nat.cast_zero] at e
    rw [e]; decide
  · have e := formatTime_natCast 65
    simp only [Nat.cast_ofNat] at e
    rw [e]; decide

theorem formatTime_spec_witness :
    ((0 : ℚ) ≤ 65 ∧ (65 : ℚ) < 6000) ∧
    (⌊(65 : ℚ) / 60⌋₊ < 100 ∧ ⌊(65 : ℚ) - 60 * ⌊(65 : ℚ) / 60⌋₊⌋₊ < 60 ∧
    formatTime (.fin 65) =
      [Nat.digitChar (⌊(65 : ℚ) / 60⌋₊ / 10), Nat.digitChar (⌊(65 : ℚ) / 60⌋₊ % 10), ':',
       Nat.digitChar (⌊(65 : ℚ) - 60 * ⌊(65 : ℚ) / 60⌋₊⌋₊ / 10),
       Nat.digitChar (⌊(65 : ℚ) - 60 * ⌊(65 : ℚ) / 60⌋₊⌋₊ % 10)] ∧
    formatTime (.fin 0) = "00:00".toList ∧ formatTime (.fin 65) = "01:05".toList) :=
  ⟨⟨by norm_num, by norm_num⟩, formatTime_spec 65 (by norm_num) (by norm_num)⟩

/-- C5, counterexample. At `s = 6000` seconds the result is `100:00`: six
characters, three of them minute digits. -/
theorem formatTime_6000 :
    (0 : ℚ) ≤ 6000 ∧ formatTime (.fin 6000) = "100:00".toList ∧
    (formatTime (.fin 6000)).length ≠ 5 := by
  have h : formatTime (.fin 6000) = "100:00".toList := by
    have := formatTime_natCast 6000
    simp only [Nat.cast_ofNat] at this
    rw [this]
    decide
  refine ⟨by norm_num, h, ?_⟩
  rw [h]
  decide

/-- C6. Evaluation at the failing input: `formatTime(NaN)` is `"NaN:NaN"`, and a
time update that reports a duration of `NaN` puts that string on display. -/
theorem formatTime_nan (s : AppState) (currentTime : JSNum) :
    formatTime .nan = "NaN:NaN".toList ∧
    (handleTimeUpdate s currentTime .nan).duration = "NaN:NaN".toList := by
  have h : formatTime .nan = "NaN:NaN".toList := by decide
  exact ⟨h, h⟩

end A4Blend
